import Mathlib

/-!
Verification development for the ScrobblingAnalysis incremental
data-extraction pipeline (src/core/data_loader.py).

The definitions below are shallow embeddings of the source functions:
pandas DataFrames become lists of `Row` records, Unix instants become
natural numbers (seconds since the epoch, UTC), the external service
becomes an explicit environment mapping a page number to that page's
outcome, and the filesystem used by the checkpoint store becomes an
explicit map from paths to contents.
-/

/-- One scrobble record.  The first six fields mirror the dictionary built in
`fetch_user_data_optimized_sequential` / `fetch_user_data_incremental`
(`user`, `datetime_utc`, `artist`, `album`, `track`, `url`); the remaining
fields are the derived calendar columns added by `prepare_final_dataframe`
(absent on raw rows, which the embedding renders as default values). -/
structure Row where
  user : String
  ts : Nat
  artist : String
  album : String
  track : String
  url : String
  year : Nat := 0
  quarter : Nat := 0
  month : Nat := 0
  day : Nat := 0
  hour : Nat := 0
  year_month : String := ""
  year_month_day : String := ""
  weekday : String := ""
deriving DecidableEq, Repr

/-- One track entry of a service response page.  `uts = none` models both a
"now playing" entry (no `date.uts` field) and a malformed timestamp, which the
source skips identically. -/
structure Track where
  uts : Option Nat
  artist : String
  album : String
  track : String
  url : String
deriving DecidableEq, Repr

/-- The deduplication key used by `drop_duplicates(subset=["datetime_utc",
"artist", "track"])`. -/
def keyOf (r : Row) : Nat × String × String := (r.ts, r.artist, r.track)

/-- The full natural key `(user, timestamp, artist, track)` of the data-model
invariant. -/
def fullKeyOf (r : Row) : String × Nat × String × String :=
  (r.user, r.ts, r.artist, r.track)

/-- Projection to the six raw columns (the content of a row before
finalization). -/
def rawProj (r : Row) : String × Nat × String × String × String × String :=
  (r.user, r.ts, r.artist, r.album, r.track, r.url)

/-!  Calendar derivation: `datetime.fromtimestamp(uts, tz=utc)` followed by the
`dt.year` / `dt.month` / ... accessors and `strftime` formats.  Days since the
epoch are converted to a civil date with the standard era/day-of-era algorithm
(the proleptic Gregorian calendar, as used by CPython for UTC instants). -/

def daysOf (ts : Nat) : Nat := ts / 86400

def eraOf (z : Nat) : Nat := (z + 719468) / 146097

def doeOf (z : Nat) : Nat := (z + 719468) % 146097

def yoeOf (z : Nat) : Nat :=
  (doeOf z - doeOf z / 1460 + doeOf z / 36524 - doeOf z / 146096) / 365

def doyOf (z : Nat) : Nat :=
  doeOf z - (365 * yoeOf z + yoeOf z / 4 - yoeOf z / 100)

def mpOf (z : Nat) : Nat := (5 * doyOf z + 2) / 153

def dayOfCivil (z : Nat) : Nat := doyOf z - (153 * mpOf z + 2) / 5 + 1

def monthOfCivil (z : Nat) : Nat :=
  if mpOf z < 10 then mpOf z + 3 else mpOf z - 9

def yearOfCivil (z : Nat) : Nat :=
  (yoeOf z + eraOf z * 400) + (if monthOfCivil z ≤ 2 then 1 else 0)

def yearOf (ts : Nat) : Nat := yearOfCivil (daysOf ts)

def monthOf (ts : Nat) : Nat := monthOfCivil (daysOf ts)

def dayOf (ts : Nat) : Nat := dayOfCivil (daysOf ts)

def hourOf (ts : Nat) : Nat := ts % 86400 / 3600

/-- `(df["datetime_utc"].dt.month - 1) // 3 + 1`. -/
def quarterOf (ts : Nat) : Nat := (monthOf ts - 1) / 3 + 1

def weekdayNames : List String :=
  ["Monday", "Tuesday", "Wednesday", "Thursday", "Friday", "Saturday", "Sunday"]

/-- `strftime("%A")`: day 0 of the epoch (1970-01-01) was a Thursday. -/
def weekdayOf (ts : Nat) : String := weekdayNames.getD ((daysOf ts + 3) % 7) ""

/-- Two-digit zero padding, as in `%m` / `%d`. -/
def pad2 (n : Nat) : String := if n < 10 then "0" ++ toString n else toString n

/-- Four-digit zero padding, as in `%Y`. -/
def pad4 (n : Nat) : String :=
  if n < 10 then "000" ++ toString n
  else if n < 100 then "00" ++ toString n
  else if n < 1000 then "0" ++ toString n
  else toString n

/-- `strftime("%Y-%m")`. -/
def yearMonthStr (ts : Nat) : String := pad4 (yearOf ts) ++ "-" ++ pad2 (monthOf ts)

/-- `strftime("%Y-%m-%d")`. -/
def yearMonthDayStr (ts : Nat) : String := yearMonthStr ts ++ "-" ++ pad2 (dayOf ts)

/-- The per-row effect of `prepare_final_dataframe`: every derived calendar
column is recomputed from `datetime_utc`. -/
def finalizeRow (r : Row) : Row :=
  { r with
    year := yearOf r.ts
    quarter := quarterOf r.ts
    month := monthOf r.ts
    day := dayOf r.ts
    hour := hourOf r.ts
    year_month := yearMonthStr r.ts
    year_month_day := yearMonthDayStr r.ts
    weekday := weekdayOf r.ts }

/-- `prepare_final_dataframe` (src/core/data_loader.py, lines 1400-1433):
an empty input is returned unchanged; otherwise every derived column is
recomputed from `datetime_utc`. -/
def prepare_final_dataframe (l : List Row) : List Row :=
  if l.isEmpty then l else l.map finalizeRow

/-!  The merge step of `load_user_data_incremental` (lines 1104-1112):
`pd.concat`, then `drop_duplicates(subset=["datetime_utc","artist","track"],
keep="last")` (which keeps, in positional order, the last occurrence of each
key), then `sort_values("datetime_utc")` (stable ascending sort). -/

/-- `drop_duplicates(..., keep="last")`: a row survives exactly when no later
row carries the same key, and surviving rows keep their relative order. -/
def dropDupKeepLast : List Row → List Row
  | [] => []
  | r :: t => if keyOf r ∈ t.map keyOf then dropDupKeepLast t else r :: dropDupKeepLast t

/-- Stable insertion into a list sorted ascending by timestamp. -/
def insertByTs (r : Row) : List Row → List Row
  | [] => [r]
  | s :: rest => if r.ts ≤ s.ts then r :: s :: rest else s :: insertByTs r rest

/-- `sort_values("datetime_utc")`: stable ascending sort by timestamp. -/
def sortByTs : List Row → List Row
  | [] => []
  | r :: rest => insertByTs r (sortByTs rest)

/-- The merge step: concatenate, deduplicate keeping the most recently fetched
version of a key collision, sort ascending by timestamp. -/
def merge (existing new : List Row) : List Row :=
  sortByTs (dropDupKeepLast (existing ++ new))

/-!  `SmartRateLimiter` (src/core/data_loader.py, lines 36-87).  Request
instants (`time.time()` values) are modelled as rationals; the deque holds
them in append order, oldest first. -/

/-- The limiter state: the rolling request log plus the three ceilings set in
`__init__`. -/
structure SmartRateLimiter where
  requests_log : List ℚ
  max_per_second : Nat := 5
  max_per_minute : Nat := 300
  max_per_hour : Nat := 15000
deriving DecidableEq, Repr

def initLimiter : SmartRateLimiter := { requests_log := [] }

/-- The purge loop of `can_make_request`: pop entries from the front while the
front entry is more than one hour old. -/
def purgeOld (now : ℚ) : List ℚ → List ℚ
  | [] => []
  | t :: rest => if now - t > 3600 then purgeOld now rest else t :: rest

/-- `sum(1 for t in self.requests_log if (now - t) < window)`. -/
def countWithin (now window : ℚ) (log : List ℚ) : Nat :=
  (log.filter (fun t => now - t < window)).length

/-- `can_make_request`: purge old entries (mutating the deque), then require
all three ceilings simultaneously.  Returns the verdict and the updated
state. -/
def can_make_request (now : ℚ) (st : SmartRateLimiter) : Bool × SmartRateLimiter :=
  let log := purgeOld now st.requests_log
  (decide (countWithin now 1 log < st.max_per_second)
      && decide (countWithin now 60 log < st.max_per_minute)
      && decide (log.length < st.max_per_hour),
    { st with requests_log := log })

/-- `record_request`: append the current instant to the log. -/
def record_request (now : ℚ) (st : SmartRateLimiter) : SmartRateLimiter :=
  { st with requests_log := st.requests_log ++ [now] }

/-!  The per-page retry loop shared by `fetch_user_data_optimized_sequential`
(lines 171-246) and `fetch_user_data_incremental` (lines 1211-1281).  One
attempt is one HTTP request; the environment maps the attempt number to that
request's outcome.  The crucial transcription detail: the `ValueError` raised
for API error codes 17 (suspended key), 6 (user not found) and other codes is
caught by the surrounding `except (requests.RequestException, ValueError,
KeyError)` clause of the same loop, so every outcome other than success leads
to `attempt += 1` and the recorded backoff sleep. -/

inductive AttemptOutcome
  | http429 (retryAfter : Nat)
  | http503
  | apiError (code : Nat) (msg : String)
  | timeout
  | connError
  | ok
deriving DecidableEq, Repr

/-- The message of the `ValueError` raised for an API-level error. -/
def raisedMessage (user : String) (code : Nat) (msg : String) : String :=
  if code = 17 then "API Key suspended: " ++ msg
  else if code = 6 then "User not found: " ++ user
  else "API Error " ++ toString code ++ ": " ++ msg

/-- Does the pattern occur at the head of the character list? -/
def charsStartWith : List Char → List Char → Bool
  | [], _ => true
  | _ :: _, [] => false
  | p :: ps, c :: cs => p == c && charsStartWith ps cs

/-- Does the pattern occur anywhere in the character list? -/
def charsContain (pat : List Char) : List Char → Bool
  | [] => charsStartWith pat []
  | c :: cs => charsStartWith pat (c :: cs) || charsContain pat cs

/-- `"rate limit" in error_msg.lower()`. -/
def mentionsRateLimit (s : String) : Bool :=
  charsContain "rate limit".data (s.data.map Char.toLower)

/-- `"too many requests" in error_msg.lower()`. -/
def mentionsTooManyRequests (s : String) : Bool :=
  charsContain "too many requests".data (s.data.map Char.toLower)

/-- Result of the retry loop for one page: whether any attempt succeeded, how
many requests were issued, and the backoff sleeps performed (in seconds, in
order). -/
structure RetryResult where
  success : Bool
  attemptsMade : Nat
  sleeps : List Nat
deriving DecidableEq, Repr

/-- The inner `while attempt <= max_retries and not success` loop.
`remaining = max_retries - attempt + 1` attempts are still allowed. -/
def attemptLoop (user : String) (env : Nat → AttemptOutcome) :
    Nat → Nat → List Nat → RetryResult
  | attempt, 0, sleeps => { success := false, attemptsMade := attempt - 1, sleeps := sleeps }
  | attempt, remaining + 1, sleeps =>
    match env attempt with
    | AttemptOutcome.ok => { success := true, attemptsMade := attempt, sleeps := sleeps }
    | AttemptOutcome.http429 ra =>
      attemptLoop user env (attempt + 1) remaining (sleeps ++ [ra + 2])
    | AttemptOutcome.http503 =>
      attemptLoop user env (attempt + 1) remaining (sleeps ++ [10 * attempt])
    | AttemptOutcome.timeout =>
      attemptLoop user env (attempt + 1) remaining (sleeps ++ [5 * attempt])
    | AttemptOutcome.connError =>
      attemptLoop user env (attempt + 1) remaining (sleeps ++ [3 * attempt])
    | AttemptOutcome.apiError code msg =>
      if code = 29 then
        attemptLoop user env (attempt + 1) remaining (sleeps ++ [60])
      else
        let em := raisedMessage user code msg
        let s := if mentionsRateLimit em || mentionsTooManyRequests em then 30 else 2 * attempt
        attemptLoop user env (attempt + 1) remaining (sleeps ++ [s])

/-- The whole retry loop for one page: `max_retries = 5`, starting at
`attempt = 1`. -/
def pageRetry (user : String) (env : Nat → AttemptOutcome) : RetryResult :=
  attemptLoop user env 1 5 []

/-!  The page loop of `fetch_user_data_optimized_sequential` (lines 102-378).
At this level a page either yields parsed JSON data (a list of track entries
plus the `@attr` page totals) or exhausts its retries; the retry mechanics are
modelled separately above.  The embedding additionally records, as ghost
output, which pages were requested, which exit fired, and the final content of
the per-user checkpoint file. -/

inductive PageOutcome
  | ok (tracks : List Track) (totalPagesAttr : Nat)
  | err
deriving DecidableEq, Repr

/-- Parsing one track entry: entries without a completed timestamp are
skipped. -/
def trackToRow (user : String) (t : Track) : Option Row :=
  match t.uts with
  | none => none
  | some ts =>
    some { user := user, ts := ts, artist := t.artist, album := t.album,
           track := t.track, url := t.url }

inductive ExitKind
  | completed
  | pausedCeiling
  | fuelExhausted
deriving DecidableEq, Repr

structure SeqState where
  allRows : List Row
  page : Nat
  totalPages : Nat
  consecutiveErrors : Nat
  ckptFile : Option (List Row)
  pagesFetched : List Nat
deriving DecidableEq, Repr

structure SeqResult where
  table : List Row
  exit : ExitKind
  ckptFile : Option (List Row)
  pagesFetched : List Nat
deriving DecidableEq, Repr

/-- Normal loop exit of the full extraction (`page > total_pages`): build the
DataFrame, add the derived calendar columns when it is non-empty, delete the
checkpoint file, return. -/
def seqFinish (s : SeqState) : SeqResult :=
  let df := if s.allRows.isEmpty then s.allRows else s.allRows.map finalizeRow
  { table := df, exit := ExitKind.completed, ckptFile := none,
    pagesFetched := s.pagesFetched }

/-- The `while page <= total_pages` loop.  `total_pages` starts at 1 and is
read from the response attributes only on the page equal to `start_page`; a
failed page increments the consecutive-error counter (pausing with a
checkpoint save at 10) and is otherwise skipped; a successful page appends its
rows, resets the counter and checkpoints every 50 pages. -/
def seqLoop (user : String) (env : Nat → PageOutcome) (startPage : Nat) :
    Nat → SeqState → SeqResult
  | 0, s => { table := s.allRows, exit := ExitKind.fuelExhausted,
              ckptFile := s.ckptFile, pagesFetched := s.pagesFetched }
  | fuel + 1, s =>
    if s.totalPages < s.page then seqFinish s
    else
      match env s.page with
      | PageOutcome.err =>
        let ce := s.consecutiveErrors + 1
        if 10 ≤ ce then
          let ck := if s.allRows.isEmpty then s.ckptFile else some s.allRows
          { table := s.allRows, exit := ExitKind.pausedCeiling, ckptFile := ck,
            pagesFetched := s.pagesFetched ++ [s.page] }
        else
          seqLoop user env startPage fuel
            { s with page := s.page + 1, consecutiveErrors := ce,
                     pagesFetched := s.pagesFetched ++ [s.page] }
      | PageOutcome.ok tracks tp =>
        let totalPages := if s.page = startPage then tp else s.totalPages
        let allRows := s.allRows ++ tracks.filterMap (trackToRow user)
        let ck := if s.page % 50 = 0 ∧ ¬ allRows.isEmpty then some allRows else s.ckptFile
        seqLoop user env startPage fuel
          { allRows := allRows, page := s.page + 1, totalPages := totalPages,
            consecutiveErrors := 0, ckptFile := ck,
            pagesFetched := s.pagesFetched ++ [s.page] }

/-- `fetch_user_data_optimized_sequential`: when resuming and a checkpoint
file exists, its rows are loaded into the accumulator and the start page is
`len(all_rows) // 200 + 1`; `total_pages` is initialised to 1 before the
loop.  `fuel` bounds the number of loop iterations of the embedding. -/
def fetch_user_data_optimized_sequential (user : String) (env : Nat → PageOutcome)
    (ckptFile : Option (List Row)) (resume : Bool) (fuel : Nat) : SeqResult :=
  let loaded : List Row := if resume then ckptFile.getD [] else []
  let startPage : Nat := if resume then loaded.length / 200 + 1 else 1
  seqLoop user env startPage fuel
    { allRows := loaded, page := startPage, totalPages := 1,
      consecutiveErrors := 0, ckptFile := ckptFile, pagesFetched := [] }

/-!  The page loop of `fetch_user_data_incremental` (lines 1134-1397).  Same
shape as the full extraction, with three differences transcribed below: the
first page's `total` attribute of 0 ends the run immediately; each track whose
timestamp is at or before `from_timestamp` sets `reached_existing_data`,
discards that track and stops; the final DataFrame is sorted ascending by
timestamp and is returned without the derived calendar columns. -/

inductive IncPageOutcome
  | ok (tracks : List Track) (totalPagesAttr : Nat) (totalAttr : Nat)
  | err
deriving DecidableEq, Repr

/-- The per-page track scan with the incremental boundary check: returns the
rows appended by this page and whether `reached_existing_data` was set. -/
def processTracks (user : String) (fromTs : Option Nat) :
    List Track → List Row × Bool
  | [] => ([], false)
  | t :: rest =>
    match t.uts with
    | none => processTracks user fromTs rest
    | some ts =>
      match fromTs with
      | some t0 =>
        if ts ≤ t0 then ([], true)
        else
          ({ user := user, ts := ts, artist := t.artist, album := t.album,
             track := t.track, url := t.url } :: (processTracks user fromTs rest).1,
           (processTracks user fromTs rest).2)
      | none =>
        ({ user := user, ts := ts, artist := t.artist, album := t.album,
           track := t.track, url := t.url } :: (processTracks user fromTs rest).1,
         (processTracks user fromTs rest).2)

structure IncState where
  allRows : List Row
  page : Nat
  totalPages : Nat
  consecutiveErrors : Nat
  ckptFile : Option (List Row)
  pagesFetched : List Nat
deriving DecidableEq, Repr

structure IncResult where
  rows : List Row
  exit : ExitKind
  ckptFile : Option (List Row)
  pagesFetched : List Nat
deriving DecidableEq, Repr

/-- Exit of the incremental loop through `break` or `page > total_pages`: sort
the accumulated rows ascending by timestamp, delete the checkpoint file,
return. -/
def incFinish (s : IncState) : IncResult :=
  { rows := sortByTs s.allRows, exit := ExitKind.completed, ckptFile := none,
    pagesFetched := s.pagesFetched }

/-- The `while page <= total_pages and not reached_existing_data` loop. -/
def incLoop (user : String) (env : Nat → IncPageOutcome) (fromTs : Option Nat)
    (startPage : Nat) : Nat → IncState → IncResult
  | 0, s => { rows := s.allRows, exit := ExitKind.fuelExhausted,
              ckptFile := s.ckptFile, pagesFetched := s.pagesFetched }
  | fuel + 1, s =>
    if s.totalPages < s.page then incFinish s
    else
      match env s.page with
      | IncPageOutcome.err =>
        if 10 ≤ s.consecutiveErrors + 1 then
          { rows := s.allRows, exit := ExitKind.pausedCeiling,
            ckptFile := if s.allRows.isEmpty then s.ckptFile else some s.allRows,
            pagesFetched := s.pagesFetched ++ [s.page] }
        else
          incLoop user env fromTs startPage fuel
            { s with page := s.page + 1,
                     consecutiveErrors := s.consecutiveErrors + 1,
                     pagesFetched := s.pagesFetched ++ [s.page] }
      | IncPageOutcome.ok tracks tp ta =>
        if s.page = startPage ∧ ta = 0 then
          incFinish { s with
            totalPages := if s.page = startPage then tp else s.totalPages,
            pagesFetched := s.pagesFetched ++ [s.page] }
        else if (processTracks user fromTs tracks).2 then
          incFinish { s with
            allRows := s.allRows ++ (processTracks user fromTs tracks).1,
            totalPages := if s.page = startPage then tp else s.totalPages,
            pagesFetched := s.pagesFetched ++ [s.page] }
        else
          incLoop user env fromTs startPage fuel
            { allRows := s.allRows ++ (processTracks user fromTs tracks).1,
              page := s.page + 1,
              totalPages := if s.page = startPage then tp else s.totalPages,
              consecutiveErrors := 0,
              ckptFile :=
                if s.page % 50 = 0 ∧
                    ¬ (s.allRows ++ (processTracks user fromTs tracks).1).isEmpty
                then some (s.allRows ++ (processTracks user fromTs tracks).1)
                else s.ckptFile,
              pagesFetched := s.pagesFetched ++ [s.page] }

/-- `fetch_user_data_incremental`: checkpoint resumption as in the full
extraction, then the incremental page loop with the watermark
`from_timestamp`. -/
def fetch_user_data_incremental (user : String) (env : Nat → IncPageOutcome)
    (fromTs : Option Nat) (ckptFile : Option (List Row)) (resume : Bool)
    (fuel : Nat) : IncResult :=
  let loaded : List Row := if resume then ckptFile.getD [] else []
  let startPage : Nat := if resume then loaded.length / 200 + 1 else 1
  incLoop user env fromTs startPage fuel
    { allRows := loaded, page := startPage, totalPages := 1,
      consecutiveErrors := 0, ckptFile := ckptFile, pagesFetched := [] }

/-- Environment built from an explicit list of page outcomes (page `p` is the
`p`-th element; pages beyond the list fail). -/
def envOfPages (l : List IncPageOutcome) : Nat → IncPageOutcome :=
  fun p => l.getD (p - 1) IncPageOutcome.err

/-- Does this track trigger `reached_existing_data` for watermark `t0`? -/
def trackReachesBoundary (t0 : Nat) (t : Track) : Bool :=
  match t.uts with
  | some ts => decide (ts ≤ t0)
  | none => false

/-- Does this page outcome contain a boundary track? -/
def pageHasBoundary (t0 : Nat) (o : IncPageOutcome) : Bool :=
  match o with
  | IncPageOutcome.ok tracks _ _ => tracks.any (trackReachesBoundary t0)
  | IncPageOutcome.err => false

/-!  The checkpoint store.  Every save in the source is the single call
`pd.DataFrame(all_rows).to_parquet(checkpoint_file, index=False)` (lines 259,
308, 1294, 1361): a direct write of the final path.  The filesystem is a map
from paths to parquet contents; a non-atomic write exposes every prefix of the
new content to a reader that interrupts it. -/

inductive FsOp
  | write (path : String) (content : List Row)
  | rename (src dst : String)
deriving DecidableEq, Repr

def checkpointPath (user : String) : String :=
  "temp_checkpoints/" ++ user ++ "_checkpoint.parquet"

/-- The filesystem operations performed by one checkpoint save in the source:
a single direct `to_parquet` write to the final checkpoint path. -/
def saveCheckpointOps (user : String) (rows : List Row) : List FsOp :=
  [FsOp.write (checkpointPath user) rows]

def applyOp (fs : String → Option (List Row)) : FsOp → String → Option (List Row)
  | FsOp.write p c => fun q => if q = p then some c else fs q
  | FsOp.rename src dst => fun q =>
      if q = dst then fs src else if q = src then none else fs q

def applyOps (fs : String → Option (List Row)) (ops : List FsOp) :
    String → Option (List Row) :=
  ops.foldl applyOp fs

/-- `pd.read_parquet(checkpoint_file)` followed by `to_dict("records")`. -/
def loadCheckpoint (fs : String → Option (List Row)) (user : String) :
    Option (List Row) :=
  fs (checkpointPath user)

/-- Does the operation sequence follow the atomic write-to-temporary-then-
rename discipline for the given final path? -/
def usesTempRename (ops : List FsOp) (finalPath : String) : Bool :=
  match ops with
  | [FsOp.write p _, FsOp.rename q r] =>
    decide (p = q) && decide (r = finalPath) && ! decide (p = finalPath)
  | _ => false

/-- The contents a reader of `path` can observe while the operation sequence
is in progress: for a direct write, every prefix of the new content (the write
is not atomic); a rename exposes no intermediate content at the destination
beyond old and new. -/
def midWriteObservations (ops : List FsOp) (path : String) : List (List Row) :=
  ops.foldr
    (fun op acc =>
      match op with
      | FsOp.write p c =>
        if p = path then (List.range (c.length + 1)).map (fun k => c.take k) ++ acc
        else acc
      | FsOp.rename _ _ => acc)
    []

/-!  `load_user_data_incremental` (lines 1067-1131).  The session cache is an
association list (`st.session_state`); the outcome of the `try` block's fetch
is an explicit `Except` value; any exception during fetch or merge lands in
the `except` branch, which finalizes and caches the existing data. -/

def set_cached_data (user : String) (df : List Row)
    (cache : List (String × List Row)) : List (String × List Row) :=
  (user, df) :: cache

def load_user_data_incremental (user : String) (existing : List Row)
    (fetchResult : Except String (List Row)) (cache : List (String × List Row)) :
    List Row × List (String × List Row) :=
  if existing.isEmpty then
    (existing, cache)
  else
    match fetchResult with
    | Except.error _ =>
      let fallback := prepare_final_dataframe existing
      (fallback, set_cached_data user fallback cache)
    | Except.ok newRows =>
      if newRows.isEmpty then
        let combined := prepare_final_dataframe existing
        (combined, set_cached_data user combined cache)
      else
        let finalDf := prepare_final_dataframe (merge existing newRows)
        (finalDf, set_cached_data user finalDf cache)

/-!  Concrete inputs used by the counterexamples and witnesses below. -/

def r0ex : Row :=
  { user := "u", ts := 100, artist := "a", album := "b", track := "t", url := "" }

def r1ex : Row :=
  { user := "u", ts := 200, artist := "c", album := "", track := "s", url := "" }

def t0ex : Track :=
  { uts := some 100, artist := "a", album := "b", track := "t", url := "" }

/-- A service with a single page holding a single scrobble. -/
def env_one : Nat → PageOutcome := fun _ => PageOutcome.ok [t0ex] 1

/-- A service whose first page succeeds (reporting 20 total pages and no
completed tracks) and whose remaining pages all fail. -/
def env_paused : Nat → PageOutcome :=
  fun p => if p = 1 then PageOutcome.ok [] 20 else PageOutcome.err

/-- A service for a user with no completed scrobbles: one page, no tracks. -/
def env_complete : Nat → PageOutcome := fun _ => PageOutcome.ok [] 1

def mkRowSeq (i : Nat) : Row :=
  { user := "u", ts := i, artist := "a", album := "", track := "t", url := "" }

def mkTrackSeq (i : Nat) : Track :=
  { uts := some i, artist := "a", album := "", track := "t", url := "" }

/-- A checkpoint holding exactly one full page worth of rows (200 rows at page
size 200). -/
def ckpt200 : List Row := (List.range 200).map mkRowSeq

/-- A two-page service: page 1 returns the 200 checkpointed scrobbles, page 2
returns 200 further ones. -/
def env_twoPages : Nat → PageOutcome := fun p =>
  if p = 1 then PageOutcome.ok ((List.range 200).map mkTrackSeq) 2
  else if p = 2 then PageOutcome.ok ((List.range 200).map (fun i => mkTrackSeq (200 + i))) 2
  else PageOutcome.err

/-- Incremental service pages for the C1 witness: page 1 holds one scrobble
newer than the watermark 100, page 2 holds one at-or-before it. -/
def pagesEx : List IncPageOutcome :=
  [IncPageOutcome.ok [{ uts := some 150, artist := "a", album := "", track := "t", url := "" }] 2 5,
   IncPageOutcome.ok [{ uts := some 90, artist := "a", album := "", track := "s", url := "" }] 2 5]

/-- Row used by the finalizer witness (2023-11-14 22:13:20 UTC). -/
def rowEx : Row :=
  { user := "u", ts := 1700000000, artist := "a", album := "b", track := "t", url := "x" }

/-- A stale checkpointed row: its timestamp 50 lies at-or-before the watermark
100 used in the C1 counterexample.  Such a checkpoint is left on disk by a
ceiling-paused incremental run; a later run can carry a newer watermark. -/
def rStaleEx : Row :=
  { user := "u", ts := 50, artist := "a", album := "", track := "t", url := "" }

/-- Incremental service for the stale-resume counterexample: the API reports
zero scrobbles newer than the watermark (`total = 0`), so the loop breaks on
page 1 and the checkpoint rows are returned as-is. -/
def envStale : Nat → IncPageOutcome := fun _ => IncPageOutcome.ok [] 1 0

/-!  ## Lemmas about the merge step -/

theorem insertByTs_perm (r : Row) (l : List Row) : List.Perm (insertByTs r l) (r :: l) := by
  induction l with
  | nil => simp [insertByTs]
  | cons s rest ih =>
    by_cases h : r.ts ≤ s.ts
    · simp [insertByTs, h]
    · simp only [insertByTs, if_neg h]
      exact (List.Perm.cons s ih).trans (List.Perm.swap r s rest)

theorem sortByTs_perm (l : List Row) : List.Perm (sortByTs l) l := by
  induction l with
  | nil => simp [sortByTs]
  | cons r rest ih =>
    exact (insertByTs_perm r (sortByTs rest)).trans (List.Perm.cons r ih)

theorem insertByTs_pairwise (r : Row) (l : List Row)
    (hl : l.Pairwise (fun a b => a.ts ≤ b.ts)) :
    (insertByTs r l).Pairwise (fun a b => a.ts ≤ b.ts) := by
  induction l with
  | nil => simp [insertByTs]
  | cons s rest ih =>
    rw [List.pairwise_cons] at hl
    by_cases h : r.ts ≤ s.ts
    · rw [insertByTs, if_pos h, List.pairwise_cons]
      refine ⟨?_, List.Pairwise.cons hl.1 hl.2⟩
      intro b hb
      rcases List.mem_cons.mp hb with rfl | hb2
      · exact h
      · exact le_trans h (hl.1 b hb2)
    · rw [insertByTs, if_neg h, List.pairwise_cons]
      constructor
      · intro b hb
        have hb3 : b ∈ r :: rest := (insertByTs_perm r rest).mem_iff.mp hb
        rcases List.mem_cons.mp hb3 with rfl | hb2
        · omega
        · exact hl.1 b hb2
      · exact ih hl.2

theorem sortByTs_pairwise (l : List Row) :
    (sortByTs l).Pairwise (fun a b => a.ts ≤ b.ts) := by
  induction l with
  | nil => simp [sortByTs]
  | cons r rest ih => exact insertByTs_pairwise r _ ih

theorem sortByTs_eq_self (l : List Row)
    (hl : l.Pairwise (fun a b => a.ts ≤ b.ts)) : sortByTs l = l := by
  induction l with
  | nil => rfl
  | cons r rest ih =>
    rw [List.pairwise_cons] at hl
    rw [sortByTs, ih hl.2]
    cases rest with
    | nil => rfl
    | cons s t => rw [insertByTs, if_pos (hl.1 s (List.mem_cons_self s t))]

theorem keys_ddl_iff (l : List Row) (k : Nat × String × String) :
    k ∈ (dropDupKeepLast l).map keyOf ↔ k ∈ l.map keyOf := by
  induction l with
  | nil => simp [dropDupKeepLast]
  | cons r t ih =>
    by_cases h : keyOf r ∈ t.map keyOf
    · rw [dropDupKeepLast, if_pos h]
      simp only [List.map_cons, List.mem_cons]
      constructor
      · intro hk
        exact Or.inr (ih.mp hk)
      · rintro (rfl | hk)
        · exact ih.mpr h
        · exact ih.mpr hk
    · rw [dropDupKeepLast, if_neg h]
      simp only [List.map_cons, List.mem_cons, ih]

theorem nodup_keys_ddl (l : List Row) : ((dropDupKeepLast l).map keyOf).Nodup := by
  induction l with
  | nil => simp [dropDupKeepLast]
  | cons r t ih =>
    by_cases h : keyOf r ∈ t.map keyOf
    · rw [dropDupKeepLast, if_pos h]
      exact ih
    · rw [dropDupKeepLast, if_neg h]
      simp only [List.map_cons, List.nodup_cons]
      exact ⟨fun hk => h ((keys_ddl_iff t (keyOf r)).mp hk), ih⟩

theorem ddl_eq_self (l : List Row) (hl : (l.map keyOf).Nodup) :
    dropDupKeepLast l = l := by
  induction l with
  | nil => rfl
  | cons r t ih =>
    simp only [List.map_cons, List.nodup_cons] at hl
    rw [dropDupKeepLast, if_neg hl.1, ih hl.2]

theorem ddl_append_absorb (e m : List Row)
    (he : ∀ k ∈ e.map keyOf, k ∈ m.map keyOf) (hm : (m.map keyOf).Nodup) :
    dropDupKeepLast (e ++ m) = m := by
  induction e with
  | nil => simpa using ddl_eq_self m hm
  | cons r e2 ih =>
    have hr : keyOf r ∈ (e2 ++ m).map keyOf := by
      have hmem : keyOf r ∈ m.map keyOf := he (keyOf r) (by simp)
      rw [List.map_append]
      exact List.mem_append_right _ hmem
    rw [List.cons_append, dropDupKeepLast, if_pos hr]
    refine ih (fun k hk => he k ?_)
    rw [List.map_cons]
    exact List.mem_cons_of_mem _ hk

theorem merge_key_mem (e n : List Row) (k : Nat × String × String)
    (hk : k ∈ (e ++ n).map keyOf) : k ∈ (merge e n).map keyOf := by
  have h1 : k ∈ (dropDupKeepLast (e ++ n)).map keyOf := (keys_ddl_iff _ k).mpr hk
  exact ((sortByTs_perm (dropDupKeepLast (e ++ n))).map keyOf).mem_iff.mpr h1

theorem merge_nodup_keys (e n : List Row) : ((merge e n).map keyOf).Nodup := by
  have h := nodup_keys_ddl (e ++ n)
  exact ((sortByTs_perm (dropDupKeepLast (e ++ n))).map keyOf).nodup_iff.mpr h

/-- Claim C6: the merge step is idempotent: for every existing and new row
sets, merging the existing rows with the result of a first merge reproduces
that first merge exactly (concatenate, deduplicate on (timestamp, artist,
track) keeping the most recently fetched version, sort ascending by
timestamp). -/
theorem C6_merge_idempotent (e n : List Row) : merge e (merge e n) = merge e n := by
  have hkeys : ∀ k ∈ e.map keyOf, k ∈ (merge e n).map keyOf := by
    intro k hk
    refine merge_key_mem e n k ?_
    rw [List.map_append]
    exact List.mem_append_left _ hk
  have habs : dropDupKeepLast (e ++ merge e n) = merge e n :=
    ddl_append_absorb e (merge e n) hkeys (merge_nodup_keys e n)
  show sortByTs (dropDupKeepLast (e ++ merge e n)) = merge e n
  rw [habs]
  exact sortByTs_eq_self _ (sortByTs_pairwise _)

/-- Witness for C6 at a concrete input. -/
theorem C6_witness : merge [r0ex] (merge [r0ex] [r1ex]) = merge [r0ex] [r1ex] :=
  C6_merge_idempotent [r0ex] [r1ex]

theorem keyOf_finalizeRow (r : Row) : keyOf (finalizeRow r) = keyOf r := by
  cases r
  simp [keyOf, finalizeRow]

theorem rawProj_finalizeRow (r : Row) : rawProj (finalizeRow r) = rawProj r := by
  cases r
  simp [rawProj, finalizeRow]

theorem finalizeRow_idem (r : Row) : finalizeRow (finalizeRow r) = finalizeRow r := by
  cases r
  simp [finalizeRow]

/-- Claim C2 (amended): after the merge step no two rows share (timestamp,
artist, track), and the incremental path's finalized merge result keeps that
property; (the full-extraction result after resuming from a checkpoint is not
deduplicated, see the counterexample). -/
theorem C2_merge_deduplicates (e n : List Row) :
    ((merge e n).map keyOf).Nodup
    ∧ ((prepare_final_dataframe (merge e n)).map keyOf).Nodup := by
  refine ⟨merge_nodup_keys e n, ?_⟩
  by_cases h : (merge e n).isEmpty
  · rw [prepare_final_dataframe, if_pos h]
    exact merge_nodup_keys e n
  · rw [prepare_final_dataframe, if_neg h, List.map_map]
    have hc : (merge e n).map (keyOf ∘ finalizeRow) = (merge e n).map keyOf :=
      List.map_congr_left (fun r _ => keyOf_finalizeRow r)
    rw [hc]
    exact merge_nodup_keys e n

/-- Witness for the C2 theorem at a concrete input. -/
theorem C2_witness :
    ((merge [r0ex] [r1ex]).map keyOf).Nodup
    ∧ ((prepare_final_dataframe (merge [r0ex] [r1ex])).map keyOf).Nodup :=
  C2_merge_deduplicates [r0ex] [r1ex]

/-- Counterexample for Claim C2 as stated: resuming the full extraction from a
one-row checkpoint recomputes start page 1 and re-fetches the already
checkpointed page, appending its row a second time; the finalized table handed
back carries two records with the same (user, timestamp, artist, track)
key. -/
theorem C2_counterexample :
    (fetch_user_data_optimized_sequential "u" env_one (some [r0ex]) true 10).table
      = [finalizeRow r0ex, finalizeRow r0ex]
    ∧ (fetch_user_data_optimized_sequential "u" env_one (some [r0ex]) true 10).exit
      = ExitKind.completed
    ∧ ¬ (((fetch_user_data_optimized_sequential "u" env_one (some [r0ex]) true 10).table.map
          fullKeyOf).Nodup) := by
  refine ⟨rfl, rfl, ?_⟩
  decide

/-!  ## Lemmas about the dataset finalizer -/

theorem eraOf_ge_four (z : Nat) : 4 ≤ eraOf z := by
  rw [eraOf]
  have h : 4 * 146097 ≤ z + 719468 := by omega
  exact (Nat.le_div_iff_mul_le (by norm_num)).mpr h

theorem yearOfCivil_ge (z : Nat) : 1600 ≤ yearOfCivil z := by
  have h4 := eraOf_ge_four z
  rw [yearOfCivil]
  have hy : 1600 ≤ yoeOf z + eraOf z * 400 := by
    have : 4 * 400 ≤ eraOf z * 400 := Nat.mul_le_mul_right 400 h4
    omega
  split
  · omega
  · omega

theorem yearOf_ge (ts : Nat) : 1000 ≤ yearOf ts :=
  le_trans (by norm_num) (yearOfCivil_ge (daysOf ts))

theorem pad4_eq_toString (n : Nat) (h : 1000 ≤ n) : pad4 n = toString n := by
  rw [pad4, if_neg (by omega), if_neg (by omega), if_neg (by omega)]

theorem finalizeRow_year_month (r : Row) :
    (finalizeRow r).year_month
      = toString (finalizeRow r).year ++ "-" ++ pad2 (finalizeRow r).month := by
  cases r with
  | mk user ts artist album track url year quarter month day hour ym ymd wd =>
    show yearMonthStr ts = toString (yearOf ts) ++ "-" ++ pad2 (monthOf ts)
    rw [yearMonthStr, pad4_eq_toString (yearOf ts) (yearOf_ge ts)]

/-- Claim C8: the dataset finalizer is a pure idempotent function: finalizing
twice equals finalizing once; for every finalized row the year_month string is
the year followed by the two-digit zero-padded month; and an empty input
yields an empty output rather than an error. -/
theorem C8_finalizer_properties (l : List Row) :
    prepare_final_dataframe (prepare_final_dataframe l) = prepare_final_dataframe l
    ∧ (∀ r ∈ prepare_final_dataframe l,
        r.year_month = toString r.year ++ "-" ++ pad2 r.month)
    ∧ prepare_final_dataframe ([] : List Row) = [] := by
  refine ⟨?_, ?_, rfl⟩
  · cases l with
    | nil => rfl
    | cons a t =>
      have h1 : prepare_final_dataframe (a :: t) = (a :: t).map finalizeRow := by
        rw [prepare_final_dataframe, if_neg (by simp)]
      rw [h1]
      have h2 : ((a :: t).map finalizeRow).isEmpty = false := by simp
      rw [prepare_final_dataframe, h2]
      show ((a :: t).map finalizeRow).map finalizeRow = (a :: t).map finalizeRow
      rw [List.map_map]
      exact List.map_congr_left (fun r _ => finalizeRow_idem r)
  · intro r hr
    cases l with
    | nil => simp [prepare_final_dataframe] at hr
    | cons a t =>
      have h1 : prepare_final_dataframe (a :: t) = (a :: t).map finalizeRow := by
        rw [prepare_final_dataframe, if_neg (by simp)]
      rw [h1] at hr
      rcases List.mem_map.mp hr with ⟨x, _, rfl⟩
      exact finalizeRow_year_month x

/-- Witness for C8 at a concrete input. -/
theorem C8_witness :
    prepare_final_dataframe (prepare_final_dataframe [rowEx]) = prepare_final_dataframe [rowEx]
    ∧ (finalizeRow rowEx).year_month
        = toString (finalizeRow rowEx).year ++ "-" ++ pad2 (finalizeRow rowEx).month := by
  have h := C8_finalizer_properties [rowEx]
  exact ⟨h.1, h.2.1 (finalizeRow rowEx) (by decide)⟩

/-!  ## The error-handling claims on the page loops -/

/-- Claim C3 (evaluated at the failing input): when every attempt of a page
request reports API error code 6 (user not found), the retry loop of the
source catches its own `ValueError` in the generic handler, issues all five
attempts with the 2-, 4-, 6-, 8-, 10-second backoff sleeps, and ends as an
ordinary retryable failure instead of aborting with a typed fatal error. -/
theorem C3_fatal_error_is_retried :
    pageRetry "ghost_user" (fun _ => AttemptOutcome.apiError 6 "User not found") =
      { success := false, attemptsMade := 5, sleeps := [2, 4, 6, 8, 10] } := by
  decide

/-- Claim C4 (evaluated at the failing input): a run that pauses at the
consecutive-error ceiling returns a value of exactly the same shape as a
successful run; here both return the identical empty table with identical
checkpoint state, so the caller cannot tell INCOMPLETE_PAUSED from
COMPLETE. -/
theorem C4_paused_indistinguishable_from_success :
    (fetch_user_data_optimized_sequential "u" env_paused none false 50).exit
      = ExitKind.pausedCeiling
    ∧ (fetch_user_data_optimized_sequential "u" env_complete none false 50).exit
      = ExitKind.completed
    ∧ (fetch_user_data_optimized_sequential "u" env_paused none false 50).table
      = (fetch_user_data_optimized_sequential "u" env_complete none false 50).table
    ∧ (fetch_user_data_optimized_sequential "u" env_paused none false 50).ckptFile
      = (fetch_user_data_optimized_sequential "u" env_complete none false 50).ckptFile := by
  refine ⟨rfl, rfl, rfl, rfl⟩

set_option maxRecDepth 100000 in
/-- Claim C5 (evaluated at the failing input): resuming from a 200-row
checkpoint computes start page 2, but the loop guard compares it against
`total_pages` still initialised to 1, so the run fetches no page at all,
returns only the checkpointed rows as a completed result, and deletes the
checkpoint; a from-scratch run over the same service fetches pages 1 and 2 and
returns 400 rows. -/
theorem C5_resumption_never_fetches :
    (fetch_user_data_optimized_sequential "u" env_twoPages (some ckpt200) true 10).pagesFetched
      = []
    ∧ (fetch_user_data_optimized_sequential "u" env_twoPages (some ckpt200) true 10).exit
      = ExitKind.completed
    ∧ (fetch_user_data_optimized_sequential "u" env_twoPages (some ckpt200) true 10).table
      = ckpt200.map finalizeRow
    ∧ (fetch_user_data_optimized_sequential "u" env_twoPages (some ckpt200) true 10).ckptFile
      = none
    ∧ (fetch_user_data_optimized_sequential "u" env_twoPages none false 10).pagesFetched
      = [1, 2]
    ∧ (fetch_user_data_optimized_sequential "u" env_twoPages none false 10).table.length
      = 400 := by
  refine ⟨rfl, rfl, rfl, rfl, rfl, rfl⟩

/-!  ## The checkpoint store claims -/

/-- Counterexample for Claim C7 as stated: the checkpoint save is a single
direct write of the final path, not a write-to-temporary-plus-rename, and a
reader interrupting the write of a two-row checkpoint can observe the
half-written one-row content. -/
theorem C7_counterexample :
    usesTempRename (saveCheckpointOps "alice" [r0ex, r1ex]) (checkpointPath "alice") = false
    ∧ [r0ex] ∈ midWriteObservations (saveCheckpointOps "alice" [r0ex, r1ex]) (checkpointPath "alice")
    ∧ [r0ex] ≠ [r0ex, r1ex] := by
  refine ⟨rfl, ?_, by decide⟩
  decide

/-- Claim C7 (amended): every checkpoint save is a single direct write of the
final per-user checkpoint path (no temporary location and rename), and a load
immediately after a completed save reconstructs the exact row set saved. -/
theorem C7_save_direct_write_and_roundtrip (user : String) (rows : List Row)
    (fs : String → Option (List Row)) :
    usesTempRename (saveCheckpointOps user rows) (checkpointPath user) = false
    ∧ loadCheckpoint (applyOps fs (saveCheckpointOps user rows)) user = some rows := by
  constructor
  · rfl
  · show (if checkpointPath user = checkpointPath user then some rows
        else fs (checkpointPath user)) = some rows
    rw [if_pos rfl]

/-- Witness for the C7 theorem at a concrete input. -/
theorem C7_witness :
    usesTempRename (saveCheckpointOps "alice" [r0ex]) (checkpointPath "alice") = false
    ∧ loadCheckpoint (applyOps (fun _ => none) (saveCheckpointOps "alice" [r0ex])) "alice"
      = some [r0ex] :=
  C7_save_direct_write_and_roundtrip "alice" [r0ex] (fun _ => none)

/-!  ## Lemmas about the rate limiter -/

theorem foldl_record (ts : List ℚ) (st : SmartRateLimiter) :
    ts.foldl (fun s t => record_request t s) st
      = { st with requests_log := st.requests_log ++ ts } := by
  induction ts generalizing st with
  | nil => simp
  | cons t rest ih =>
    rw [List.foldl_cons, ih]
    simp [record_request, List.append_assoc]

theorem purgeOld_of_recent (now : ℚ) (l : List ℚ)
    (h : ∀ t ∈ l, ¬ now - t > 3600) : purgeOld now l = l := by
  cases l with
  | nil => rfl
  | cons t rest => rw [purgeOld, if_neg (h t (List.mem_cons_self t rest))]

theorem mem_of_mem_purgeOld (now : ℚ) (l : List ℚ) (t : ℚ)
    (h : t ∈ purgeOld now l) : t ∈ l := by
  induction l with
  | nil => simp [purgeOld] at h
  | cons s rest ih =>
    rw [purgeOld] at h
    by_cases hs : now - s > 3600
    · rw [if_pos hs] at h
      exact List.mem_cons_of_mem s (ih h)
    · rw [if_neg hs] at h
      exact h

theorem purgeOld_length_le (now : ℚ) (l : List ℚ) :
    (purgeOld now l).length ≤ l.length := by
  induction l with
  | nil => simp [purgeOld]
  | cons s rest ih =>
    rw [purgeOld]
    by_cases hs : now - s > 3600
    · rw [if_pos hs]
      simp only [List.length_cons]
      omega
    · rw [if_neg hs]

theorem purgeOld_recent_of_sorted (now : ℚ) (l : List ℚ)
    (hl : l.Pairwise (fun a b => a ≤ b)) :
    ∀ t ∈ purgeOld now l, now - t ≤ 3600 := by
  induction l with
  | nil => intro t ht; simp [purgeOld] at ht
  | cons s rest ih =>
    rw [List.pairwise_cons] at hl
    intro t ht
    rw [purgeOld] at ht
    by_cases hs : now - s > 3600
    · rw [if_pos hs] at ht
      exact ih hl.2 t ht
    · rw [if_neg hs] at ht
      rcases List.mem_cons.mp ht with rfl | ht2
      · linarith [not_lt.mp hs]
      · have hst : s ≤ t := hl.1 t ht2
        have hns : now - s ≤ 3600 := not_lt.mp hs
        linarith

theorem countWithin_eq_length (now w : ℚ) (l : List ℚ)
    (h : ∀ t ∈ l, now - t < w) : countWithin now w l = l.length := by
  induction l with
  | nil => rfl
  | cons s rest ih =>
    have hs : now - s < w := h s (List.mem_cons_self s rest)
    have hr : ∀ t ∈ rest, now - t < w := fun t ht => h t (List.mem_cons_of_mem s ht)
    rw [countWithin, List.filter_cons_of_pos (by simpa using hs)]
    simp only [List.length_cons]
    rw [countWithin] at ih
    rw [ih hr]

theorem countWithin_eq_zero (now w : ℚ) (l : List ℚ)
    (h : ∀ t ∈ l, ¬ now - t < w) : countWithin now w l = 0 := by
  induction l with
  | nil => rfl
  | cons s rest ih =>
    have hs : ¬ now - s < w := h s (List.mem_cons_self s rest)
    have hr : ∀ t ∈ rest, ¬ now - t < w := fun t ht => h t (List.mem_cons_of_mem s ht)
    rw [countWithin, List.filter_cons_of_neg (by simpa using hs)]
    rw [countWithin] at ih
    rw [ih hr]

theorem countWithin_le_length (now w : ℚ) (l : List ℚ) :
    countWithin now w l ≤ l.length :=
  List.length_filter_le _ l

/-- Claim C9: for calls recorded within the trailing second, `can_make_request`
answers false exactly when the per-second ceiling of 5 is met; once a full
second has elapsed (and the per-minute and per-hour ceilings hold) it answers
true again; and on every check the retained log holds no entry older than one
hour (for a chronologically ordered log). -/
theorem C9_rate_limiter_safety (ts : List ℚ) (now later : ℚ)
    (hwin : ∀ t ∈ ts, now - 1 < t ∧ t ≤ now) :
    (can_make_request now (ts.foldl (fun s t => record_request t s) initLimiter)).1
        = decide (ts.length < 5)
    ∧ (ts.length < 300 → now + 1 ≤ later →
        (can_make_request later
          ((can_make_request now (ts.foldl (fun s t => record_request t s) initLimiter)).2)).1
          = true)
    ∧ (∀ (log : List ℚ) (t : ℚ), log.Pairwise (fun a b => a ≤ b) →
        t ∈ ((can_make_request later { requests_log := log }).2).requests_log →
        later - t ≤ 3600) := by
  have hst : ts.foldl (fun s t => record_request t s) initLimiter
      = { requests_log := ts } := by
    rw [foldl_record]
    rfl
  have hp : purgeOld now ts = ts :=
    purgeOld_of_recent now ts (fun t ht => by
      have h1 := (hwin t ht).1
      intro hgt
      linarith)
  have hc1 : countWithin now 1 ts = ts.length :=
    countWithin_eq_length now 1 ts (fun t ht => by
      have h1 := (hwin t ht).1
      linarith)
  have hc60 : countWithin now 60 ts = ts.length :=
    countWithin_eq_length now 60 ts (fun t ht => by
      have h1 := (hwin t ht).1
      linarith)
  refine ⟨?_, ?_, ?_⟩
  · rw [hst]
    show (decide (countWithin now 1 (purgeOld now ts) < 5)
        && decide (countWithin now 60 (purgeOld now ts) < 300)
        && decide ((purgeOld now ts).length < 15000)) = decide (ts.length < 5)
    rw [hp, hc1, hc60]
    by_cases h : ts.length < 5
    · have h3 : ts.length < 300 := by omega
      have h15 : ts.length < 15000 := by omega
      simp [h, h3, h15]
    · simp [h]
  · intro h300 hlater
    rw [hst]
    have hst2 : (can_make_request now { requests_log := ts }).2
        = ({ requests_log := ts } : SmartRateLimiter) := by
      show ({ requests_log := purgeOld now ts } : SmartRateLimiter) = _
      rw [hp]
    rw [hst2]
    show (decide (countWithin later 1 (purgeOld later ts) < 5)
        && decide (countWithin later 60 (purgeOld later ts) < 300)
        && decide ((purgeOld later ts).length < 15000)) = true
    have hz : countWithin later 1 (purgeOld later ts) = 0 :=
      countWithin_eq_zero later 1 (purgeOld later ts) (fun t ht => by
        have h2 := (hwin t (mem_of_mem_purgeOld later ts t ht)).2
        intro hlt
        linarith)
    have hlen : (purgeOld later ts).length ≤ ts.length := purgeOld_length_le later ts
    have h60 : countWithin later 60 (purgeOld later ts) ≤ ts.length :=
      le_trans (countWithin_le_length later 60 (purgeOld later ts)) hlen
    have d1 : countWithin later 1 (purgeOld later ts) < 5 := by omega
    have d2 : countWithin later 60 (purgeOld later ts) < 300 := by omega
    have d3 : (purgeOld later ts).length < 15000 := by omega
    simp [d1, d2, d3]
  · intro log t hsorted ht
    have ht2 : t ∈ purgeOld later log := ht
    exact purgeOld_recent_of_sorted later log hsorted t ht2

/-- Witness for C9 at a concrete input: five requests recorded at instant 100
block a sixth at instant 100.9, and the limiter allows requests again at
instant 101. -/
theorem C9_witness :
    ((can_make_request (109 / 10) ([(10 : ℚ), 10, 10, 10, 10].foldl
        (fun s t => record_request t s) initLimiter)).1 = false)
    ∧ ((can_make_request 12 ((can_make_request (109 / 10) ([(10 : ℚ), 10, 10, 10, 10].foldl
        (fun s t => record_request t s) initLimiter)).2)).1 = true) := by
  have h := C9_rate_limiter_safety [(10 : ℚ), 10, 10, 10, 10] (109 / 10) 12 (by
    intro t ht
    fin_cases ht <;> constructor <;> norm_num)
  refine ⟨?_, h.2.1 (by norm_num) (by norm_num)⟩
  have h1 := h.1
  simpa using h1

/-!  ## Lemmas about the incremental boundary -/

theorem processTracks_boundary (user : String) (t0 : Nat) (tracks : List Track) :
    (processTracks user (some t0) tracks).2 = tracks.any (trackReachesBoundary t0) := by
  induction tracks with
  | nil => rfl
  | cons t rest ih =>
    cases h : t.uts with
    | none => simp [processTracks, h, trackReachesBoundary, ih]
    | some ts =>
      by_cases hle : ts ≤ t0
      · simp [processTracks, h, hle, trackReachesBoundary]
      · simp [processTracks, h, hle, trackReachesBoundary, ih]

theorem processTracks_rows_gt (user : String) (t0 : Nat) (tracks : List Track) :
    ∀ r ∈ (processTracks user (some t0) tracks).1, t0 < r.ts := by
  induction tracks with
  | nil => intro r hr; simp [processTracks] at hr
  | cons t rest ih =>
    intro r hr
    cases h : t.uts with
    | none =>
      simp only [processTracks, h] at hr
      exact ih r hr
    | some ts =>
      simp only [processTracks, h] at hr
      by_cases hle : ts ≤ t0
      · rw [if_pos hle] at hr
        simp at hr
      · rw [if_neg hle] at hr
        rcases List.mem_cons.mp hr with rfl | hr2
        · exact not_le.mp hle
        · exact ih r hr2

theorem incLoop_rows_mem_or_gt (user : String) (env : Nat → IncPageOutcome) (t0 : Nat)
    (startPage : Nat) (fuel : Nat) (s : IncState) (L : List Row)
    (hs : ∀ r ∈ s.allRows, r ∈ L ∨ t0 < r.ts) :
    ∀ r ∈ (incLoop user env (some t0) startPage fuel s).rows, r ∈ L ∨ t0 < r.ts := by
  induction fuel generalizing s with
  | zero => exact hs
  | succ fuel ih =>
    intro r hr
    rw [incLoop] at hr
    split at hr
    · exact hs r ((sortByTs_perm s.allRows).mem_iff.mp hr)
    · split at hr
      · -- err arm
        split at hr
        · exact hs r hr
        · refine ih _ ?_ r hr
          intro q hq
          exact hs q hq
      · -- ok arm
        split at hr
        · exact hs r ((sortByTs_perm s.allRows).mem_iff.mp hr)
        · rename_i tracks tp ta heq hta
          split at hr
          · rcases List.mem_append.mp ((sortByTs_perm _).mem_iff.mp hr) with h1 | h2
            · exact hs r h1
            · exact Or.inr (processTracks_rows_gt user t0 tracks r h2)
          · refine ih _ ?_ r hr
            intro q hq
            rcases List.mem_append.mp hq with h1 | h2
            · exact hs q h1
            · exact Or.inr (processTracks_rows_gt user t0 tracks q h2)

theorem incLoop_immediate_finish (user : String) (env : Nat → IncPageOutcome)
    (fromTs : Option Nat) (startPage fuel : Nat) (s : IncState)
    (h : s.totalPages < s.page) :
    (incLoop user env fromTs startPage fuel s).pagesFetched = s.pagesFetched := by
  cases fuel with
  | zero => rfl
  | succ fuel =>
    rw [incLoop, if_pos h]
    rfl

theorem incLoop_stops_at_boundary (user : String) (pages : List IncPageOutcome)
    (t0 : Nat) (startPage fuel : Nat) (s : IncState) (i : Nat)
    (_hi : i < pages.length)
    (hb : pageHasBoundary t0 (pages.getD i IncPageOutcome.err) = true)
    (hpage : s.page ≤ i + 1)
    (hpf : ∀ p ∈ s.pagesFetched, p < s.page) :
    ∀ p ∈ (incLoop user (envOfPages pages) (some t0) startPage fuel s).pagesFetched,
      p ≤ i + 1 := by
  induction fuel generalizing s with
  | zero =>
    intro p hp
    have := hpf p hp
    omega
  | succ fuel ih =>
    intro p hp
    rw [incLoop] at hp
    split at hp
    · have := hpf p hp
      omega
    · split at hp
      · -- err arm
        rename_i heq
        split at hp
        · rcases List.mem_append.mp hp with h1 | h2
          · have := hpf p h1
            omega
          · simp at h2
            omega
        · have hne : s.page ≠ i + 1 := by
            intro hEq
            rw [hEq] at heq
            have h2 : pages.getD i IncPageOutcome.err = IncPageOutcome.err := heq
            rw [h2] at hb
            simp [pageHasBoundary] at hb
          refine ih _ ?_ ?_ p hp
          · show s.page + 1 ≤ i + 1
            omega
          · intro q hq
            show q < s.page + 1
            rcases List.mem_append.mp hq with h1 | h2
            · have := hpf q h1
              omega
            · simp at h2
              omega
      · -- ok arm
        rename_i tracks tp ta heq
        split at hp
        · rcases List.mem_append.mp hp with h1 | h2
          · have := hpf p h1
            omega
          · simp at h2
            omega
        · split at hp
          · rcases List.mem_append.mp hp with h1 | h2
            · have := hpf p h1
              omega
            · simp at h2
              omega
          · rename_i hta hproc
            have hne : s.page ≠ i + 1 := by
              intro hEq
              rw [hEq] at heq
              have h2 : pages.getD i IncPageOutcome.err = IncPageOutcome.ok tracks tp ta := heq
              rw [h2] at hb
              have hany : tracks.any (trackReachesBoundary t0) = true := by
                simpa [pageHasBoundary] using hb
              rw [processTracks_boundary] at hproc
              exact hproc hany
            refine ih _ ?_ ?_ p hp
            · show s.page + 1 ≤ i + 1
              omega
            · intro q hq
              show q < s.page + 1
              rcases List.mem_append.mp hq with h1 | h2
              · have := hpf q h1
                omega
              · simp at h2
                omega

/-- Claim C1 (amended): for every call of the incremental fetch with watermark
T — any checkpoint file and resume flag — every returned row either was loaded
verbatim from the resume checkpoint or has timestamp strictly after T: the
per-track check discards the boundary row and everything at-or-before it among
the freshly fetched rows, and once a page contains a boundary row no later
page is fetched.  Rows loaded from a leftover checkpoint bypass the boundary
filter (see the counterexample). -/
theorem C1_incremental_boundary (pages : List IncPageOutcome) (t0 : Nat)
    (user : String) (ckptFile : Option (List Row)) (resume : Bool) (fuel : Nat) :
    (∀ r ∈ (fetch_user_data_incremental user (envOfPages pages) (some t0) ckptFile resume fuel).rows,
        r ∈ (if resume then ckptFile.getD [] else []) ∨ t0 < r.ts)
    ∧ (∀ i, i < pages.length →
        pageHasBoundary t0 (pages.getD i IncPageOutcome.err) = true →
        ∀ p ∈ (fetch_user_data_incremental user (envOfPages pages) (some t0) ckptFile resume fuel).pagesFetched,
          p ≤ i + 1) := by
  constructor
  · exact incLoop_rows_mem_or_gt user (envOfPages pages) t0
      (if resume then (if resume then ckptFile.getD [] else []).length / 200 + 1 else 1) fuel
      { allRows := if resume then ckptFile.getD [] else [],
        page := if resume then (if resume then ckptFile.getD [] else []).length / 200 + 1 else 1,
        totalPages := 1, consecutiveErrors := 0, ckptFile := ckptFile, pagesFetched := [] }
      (if resume then ckptFile.getD [] else [])
      (fun q hq => Or.inl hq)
  · intro i hi hb p hp
    by_cases hsp : (if resume then (if resume then ckptFile.getD [] else []).length / 200 + 1 else 1) ≤ i + 1
    · exact incLoop_stops_at_boundary user pages t0
        (if resume then (if resume then ckptFile.getD [] else []).length / 200 + 1 else 1) fuel
        { allRows := if resume then ckptFile.getD [] else [],
          page := if resume then (if resume then ckptFile.getD [] else []).length / 200 + 1 else 1,
          totalPages := 1, consecutiveErrors := 0, ckptFile := ckptFile, pagesFetched := [] }
        i hi hb hsp (fun q hq => absurd hq (List.not_mem_nil q)) p hp
    · have hgt : 1 < (if resume then (if resume then ckptFile.getD [] else []).length / 200 + 1 else 1) := by
        omega
      have hp2 : p ∈ (incLoop user (envOfPages pages) (some t0)
          (if resume then (if resume then ckptFile.getD [] else []).length / 200 + 1 else 1) fuel
          { allRows := if resume then ckptFile.getD [] else [],
            page := if resume then (if resume then ckptFile.getD [] else []).length / 200 + 1 else 1,
            totalPages := 1, consecutiveErrors := 0, ckptFile := ckptFile,
            pagesFetched := [] }).pagesFetched := hp
      rw [incLoop_immediate_finish user (envOfPages pages) (some t0)
        (if resume then (if resume then ckptFile.getD [] else []).length / 200 + 1 else 1) fuel
        { allRows := if resume then ckptFile.getD [] else [],
          page := if resume then (if resume then ckptFile.getD [] else []).length / 200 + 1 else 1,
          totalPages := 1, consecutiveErrors := 0, ckptFile := ckptFile,
          pagesFetched := [] } hgt] at hp2
      exact absurd hp2 (List.not_mem_nil p)

/-- Counterexample for Claim C1 as stated: resuming (as the application does)
with a stale one-row checkpoint whose row sits at timestamp 50, against a
watermark of 100, returns that row even though its timestamp is at-or-before
the watermark — checkpointed rows are loaded into the accumulator without any
boundary check. -/
theorem C1_counterexample :
    (fetch_user_data_incremental "u" envStale (some 100) (some [rStaleEx]) true 10).rows
      = [rStaleEx]
    ∧ rStaleEx.ts ≤ 100 := by
  exact ⟨rfl, by decide⟩

/-- Witness for the amended C1 theorem at concrete inputs: with no checkpoint,
every returned row is strictly newer than the watermark 100 and no page beyond
the boundary page 2 is fetched; with the stale checkpoint of the
counterexample, every returned row is a checkpoint row or newer than 100. -/
theorem C1_witness :
    ((fetch_user_data_incremental "u" (envOfPages pagesEx) (some 100) none false 10).rows.all
      (fun r => decide (100 < r.ts))) = true
    ∧ ((fetch_user_data_incremental "u" (envOfPages pagesEx) (some 100) none false 10).pagesFetched.all
      (fun p => decide (p ≤ 2))) = true
    ∧ ((fetch_user_data_incremental "u" (envOfPages [IncPageOutcome.ok [] 1 0]) (some 100)
        (some [rStaleEx]) true 10).rows.all
      (fun r => decide (r ∈ [rStaleEx]) || decide (100 < r.ts))) = true := by
  have h := C1_incremental_boundary pagesEx 100 "u" none false 10
  have h2 := C1_incremental_boundary [IncPageOutcome.ok [] 1 0] 100 "u" (some [rStaleEx]) true 10
  refine ⟨?_, ?_, ?_⟩
  · rw [List.all_eq_true]
    intro r hr
    rcases h.1 r hr with hmem | hgt
    · exact absurd hmem (List.not_mem_nil r)
    · exact decide_eq_true hgt
  · rw [List.all_eq_true]
    intro p hp
    exact decide_eq_true (h.2 1 (by decide) (by decide) p hp)
  · rw [List.all_eq_true]
    intro r hr
    rcases h2.1 r hr with hmem | hgt
    · rw [Bool.or_eq_true]
      exact Or.inl (decide_eq_true hmem)
    · rw [Bool.or_eq_true]
      exact Or.inr (decide_eq_true hgt)

/-!  ## The incremental loading entry point -/

/-- Claim C10: when the caller supplies a non-empty existing dataset and the
incremental fetch-and-merge raises, `load_user_data_incremental` neither
raises nor loses data: it returns the existing dataset finalized (same length,
same raw content row for row) and stores that table in the session cache. -/
theorem C10_existing_preserved_on_failure (user : String) (existing : List Row)
    (cache : List (String × List Row)) (msg : String) (hne : existing ≠ []) :
    (load_user_data_incremental user existing (Except.error msg) cache).1
        = prepare_final_dataframe existing
    ∧ (load_user_data_incremental user existing (Except.error msg) cache).2
        = set_cached_data user (prepare_final_dataframe existing) cache
    ∧ ((load_user_data_incremental user existing (Except.error msg) cache).1).map rawProj
        = existing.map rawProj
    ∧ ((load_user_data_incremental user existing (Except.error msg) cache).1).length
        = existing.length := by
  have hE : existing.isEmpty = false := by
    cases existing with
    | nil => exact absurd rfl hne
    | cons a t => rfl
  have hload : load_user_data_incremental user existing (Except.error msg) cache
      = (prepare_final_dataframe existing,
         set_cached_data user (prepare_final_dataframe existing) cache) := by
    rw [load_user_data_incremental]
    simp [hE]
  have hprep : prepare_final_dataframe existing = existing.map finalizeRow := by
    rw [prepare_final_dataframe]
    simp [hE]
  refine ⟨by rw [hload], by rw [hload], ?_, ?_⟩
  · rw [hload]
    show (prepare_final_dataframe existing).map rawProj = existing.map rawProj
    rw [hprep, List.map_map]
    exact List.map_congr_left (fun r _ => rawProj_finalizeRow r)
  · rw [hload]
    show (prepare_final_dataframe existing).length = existing.length
    rw [hprep, List.length_map]

/-- Witness for C10 at a concrete input. -/
theorem C10_witness :
    (load_user_data_incremental "u" [r0ex] (Except.error "boom") []).1
      = [finalizeRow r0ex]
    ∧ (load_user_data_incremental "u" [r0ex] (Except.error "boom") []).2
      = [("u", [finalizeRow r0ex])] := by
  have h := C10_existing_preserved_on_failure "u" [r0ex] [] "boom" (by decide)
  refine ⟨?_, ?_⟩
  · rw [h.1]
    rfl
  · rw [h.2.1]
    rfl
